import Mathlib

/-!
Shallow embedding of the schema-inference and aggregation pipeline of
`src/main.py` (European Population Data Analysis System).

Tables are ordered lists of rows; a row is an association list from column
name to a cell value.  Cell values are rationals (for numeric cells),
strings, or missing (pandas NaN).  Numeric computation is modelled over ℚ;
the only IEEE-special values reachable in this pipeline (via division by
zero in the growth-rate stage) are modelled explicitly by the
`GrowthValue` type.
-/

namespace EuroPop

/-- A cell value: a number, a string, or a missing entry (pandas NaN). -/
inductive Value where
  | num (q : ℚ)
  | str (s : String)
  | missing
deriving DecidableEq

/-- A row: an association list from column name to cell value. -/
abbrev Row := List (String × Value)

/-- A table: the column names plus the ordered list of rows. -/
structure Table where
  cols : List String
  rows : List Row
deriving DecidableEq

/-- Cell access: the value stored under column `c`, missing when absent. -/
def getVal (r : Row) (c : String) : Value :=
  (r.lookup c).getD Value.missing

/-! ### Column resolution (the candidate-name loops of main.py) -/

/-- The `for col in [...]: if col in self.data.columns: return col` loop:
first candidate name present among the columns. -/
def resolveFirst (cands : List String) (cols : List String) : Option String :=
  cands.find? (fun c => cols.contains c)

/-- Candidate names checked by `DataProcessor._get_country_column`. -/
def countryCandidates : List String :=
  ["geo", "country", "Country", "GEO", "Country Name"]

/-- Candidate names checked inline by
`DataProcessor.filter_european_countries` (note: no "Country Name"). -/
def filterCountryCandidates : List String :=
  ["geo", "country", "Country", "GEO"]

/-- Candidate names checked by the year-column loops. -/
def yearCandidates : List String :=
  ["TIME_PERIOD", "time", "year", "Year"]

/-- Candidate names checked by `DataProcessor._get_value_column`. -/
def valueCandidates : List String :=
  ["OBS_VALUE", "value", "population", "Population", "Value"]

/-- `DataProcessor._get_country_column`. -/
def get_country_column (t : Table) : Option String :=
  resolveFirst countryCandidates t.cols

/-- `DataProcessor._get_value_column`. -/
def get_value_column (t : Table) : Option String :=
  resolveFirst valueCandidates t.cols

/-- The year-column loop appearing in `filter_by_year`,
`calculate_growth_rate` and `plot_top_countries`. -/
def getYearColumn (t : Table) : Option String :=
  resolveFirst yearCandidates t.cols

/-- The country-column loop inlined in `filter_european_countries`. -/
def filterEuropeanCountryCol (t : Table) : Option String :=
  resolveFirst filterCountryCandidates t.cols

/-! ### Cleaning (`DataProcessor.clean_data`) -/

/-- pandas `drop_duplicates`: keep the first occurrence of each row. -/
def dedupFirst {α : Type} [DecidableEq α] (l : List α) : List α :=
  (l.reverse.dedup).reverse

/-- Whether a row contains a missing value in any field. -/
def rowHasMissing (r : Row) : Bool :=
  r.any (fun p => match p.2 with | Value.missing => true | _ => false)

/-- pandas `dropna`: remove every row containing a missing value. -/
def dropna (rows : List Row) : List Row :=
  rows.filter (fun r => !rowHasMissing r)

/-- `DataProcessor.clean_data`: `drop_duplicates` followed by `dropna`. -/
def clean_data (t : Table) : Table :=
  { t with rows := dropna (dedupFirst t.rows) }

/-! ### Filtering (`filter_by_year`, `filter_european_countries`) -/

/-- Comparison `cell >= bound` of a cell with a numeric bound, as in
`self.data[year_col] >= start_year`. -/
def vge (v : Value) (b : ℚ) : Bool :=
  match v with
  | Value.num q => decide (b ≤ q)
  | _ => false

/-- Comparison `cell <= bound`. -/
def vle (v : Value) (b : ℚ) : Bool :=
  match v with
  | Value.num q => decide (q ≤ b)
  | _ => false

/-- The `if start_year:` guard of `filter_by_year`: Python truthiness, so
`None` and `0` both skip the lower-bound filter. -/
def applyStart (yc : String) (sy : Option ℤ) (rows : List Row) : List Row :=
  match sy with
  | none => rows
  | some s => if s = 0 then rows else rows.filter (fun r => vge (getVal r yc) (s : ℚ))

/-- The `if end_year:` guard of `filter_by_year`. -/
def applyEnd (yc : String) (ey : Option ℤ) (rows : List Row) : List Row :=
  match ey with
  | none => rows
  | some e => if e = 0 then rows else rows.filter (fun r => vle (getVal r yc) (e : ℚ))

/-- `DataProcessor.filter_by_year`: resolve the year column (no-op when
unresolved), then apply the truthy bounds in sequence. -/
def filter_by_year (sy ey : Option ℤ) (t : Table) : Table :=
  match getYearColumn t with
  | none => t
  | some yc => { t with rows := applyEnd yc ey (applyStart yc sy t.rows) }

/-- Membership test `cell.isin(allowed)` for a country cell. -/
def vin (v : Value) (allowed : List String) : Bool :=
  match v with
  | Value.str s => allowed.contains s
  | _ => false

/-- Row filtering by an entity allow-list, using the four-name column loop
of `filter_european_countries`; no-op when the column is unresolved. -/
def filter_countries (allowed : List String) (t : Table) : Table :=
  match filterEuropeanCountryCol t with
  | none => t
  | some cc => { t with rows := t.rows.filter (fun r => vin (getVal r cc) allowed) }

/-- The fixed allow-list hard-coded in `filter_european_countries`. -/
def european_countries : List String :=
  ["Austria", "Belgium", "Bulgaria", "Croatia", "Cyprus",
   "Czechia", "Denmark", "Estonia", "Finland", "France",
   "Germany", "Greece", "Hungary", "Ireland", "Italy",
   "Latvia", "Lithuania", "Luxembourg", "Malta", "Netherlands",
   "Poland", "Portugal", "Romania", "Slovakia", "Slovenia",
   "Spain", "Sweden", "United Kingdom", "Norway", "Switzerland"]

/-- `DataProcessor.filter_european_countries`. -/
def filter_european_countries (t : Table) : Table :=
  filter_countries european_countries t

/-! ### Orderings used by pandas sorting and sorted group keys -/

/-- Lexicographic comparison of character lists (the order pandas uses on
string values, by Unicode code point). -/
def charListLe : List Char → List Char → Bool
  | [], _ => true
  | _ :: _, [] => false
  | a :: as, b :: bs => decide (a < b) || (decide (a = b) && charListLe as bs)

/-- String order by code points. -/
def strLe (a b : String) : Bool :=
  charListLe a.data b.data

/-- Total order on cell values: numbers (by ℚ), then strings (by code
point), then missing.  Within this pipeline only homogeneous columns are
ever compared or sorted, so the cross-kind ranking is immaterial; it is
fixed only to make the sort total. -/
def valueLe (a b : Value) : Bool :=
  match a, b with
  | Value.num x, Value.num y => decide (x ≤ y)
  | Value.num _, _ => true
  | Value.str _, Value.num _ => false
  | Value.str x, Value.str y => strLe x y
  | Value.str _, Value.missing => true
  | Value.missing, Value.missing => true
  | Value.missing, _ => false

/-- Strict part of `valueLe`. -/
def valueLt (a b : Value) : Bool :=
  valueLe a b && !valueLe b a

/-- Row comparison for `sort_values([country_col, year_col])`: entity
ascending, then time ascending. -/
def rowLe (cc yc : String) (r1 r2 : Row) : Bool :=
  valueLt (getVal r1 cc) (getVal r2 cc) ||
    (decide (getVal r1 cc = getVal r2 cc) && valueLe (getVal r1 yc) (getVal r2 yc))

/-- Stable ascending sort of the rows by (entity, time); pandas
multi-column `sort_values` is a stable lexicographic sort, and any stable
sort of a total preorder computes the same list as insertion sort. -/
def sortRows (cc yc : String) (rows : List Row) : List Row :=
  List.insertionSort (fun r1 r2 => rowLe cc yc r1 r2 = true) rows

/-! ### Aggregation (`DataProcessor.aggregate_by_country`) -/

/-- Whether a cell is a usable (non-missing) group key; pandas `groupby`
drops rows whose key is NaN. -/
def notMissingB (v : Value) : Bool :=
  match v with
  | Value.missing => false
  | _ => true

/-- The distinct non-missing key values of the country column, in sorted
order (pandas `groupby` sorts group keys ascending by default). -/
def sortedGroupKeys (cc : String) (rows : List Row) : List Value :=
  List.insertionSort (fun a b => valueLe a b = true)
    (dedupFirst ((rows.map (fun r => getVal r cc)).filter notMissingB))

/-- The rows belonging to the group keyed by `k`. -/
def groupRows (cc : String) (k : Value) (rows : List Row) : List Row :=
  rows.filter (fun r => decide (getVal r cc = k))

/-- The numeric cells of the value column within a list of rows; pandas
aggregation skips NaN cells (`skipna`). -/
def groupVals (vc : String) (rows : List Row) : List ℚ :=
  rows.filterMap (fun r =>
    match getVal r vc with
    | Value.num q => some q
    | _ => none)

/-- Sum of a list of rationals (pandas `sum`, 0 on the empty list). -/
def qsum (l : List ℚ) : ℚ :=
  l.foldr (fun a b => a + b) 0

/-- pandas `mean`: NaN on an empty list of numeric cells. -/
def qmean (l : List ℚ) : Value :=
  match l with
  | [] => Value.missing
  | x :: xs => Value.num (qsum (x :: xs) / (x :: xs).length)

/-- pandas `min`: NaN on an empty list. -/
def qminV (l : List ℚ) : Value :=
  match l with
  | [] => Value.missing
  | x :: xs => Value.num (xs.foldl (fun a b => min a b) x)

/-- pandas `max`: NaN on an empty list. -/
def qmaxV (l : List ℚ) : Value :=
  match l with
  | [] => Value.missing
  | x :: xs => Value.num (xs.foldl (fun a b => max a b) x)

/-- One output row of `aggregate_by_country`, with the renamed columns
Country, Average, Minimum, Maximum, Total. -/
structure AggRecord where
  country : Value
  average : Value
  minimum : Value
  maximum : Value
  total : Value
deriving DecidableEq

/-- The aggregate record for group key `k`. -/
def aggRecordFor (cc vc : String) (rows : List Row) (k : Value) : AggRecord :=
  { country := k
    average := qmean (groupVals vc (groupRows cc k rows))
    minimum := qminV (groupVals vc (groupRows cc k rows))
    maximum := qmaxV (groupVals vc (groupRows cc k rows))
    total := Value.num (qsum (groupVals vc (groupRows cc k rows))) }

/-- Result of `aggregate_by_country`: the aggregated records, or the input
table passed through when a required column is unresolved. -/
inductive AggResult where
  | agg (records : List AggRecord)
  | passthrough (t : Table)
deriving DecidableEq

/-- `DataProcessor.aggregate_by_country`. -/
def aggregate_by_country (t : Table) : AggResult :=
  match get_country_column t, get_value_column t with
  | some cc, some vc =>
      AggResult.agg ((sortedGroupKeys cc t.rows).map (aggRecordFor cc vc t.rows))
  | _, _ => AggResult.passthrough t

/-! ### Top-n selection (`DataAnalyzer.find_top_countries`) -/

/-- Whether a cell is numeric. -/
def isNumV (v : Value) : Bool :=
  match v with
  | Value.num _ => true
  | _ => false

/-- The numeric value of a cell (defined on numeric cells; rows with
non-numeric cells are filtered out before this is used). -/
def numOf (v : Value) : ℚ :=
  match v with
  | Value.num q => q
  | _ => 0

/-- pandas `nlargest(n, vc)`: empty for n ≤ 0; otherwise drop rows whose
value cell is NaN, stably sort descending by the value column, and take
the first n rows. -/
def nlargestRows (n : ℤ) (vc : String) (rows : List Row) : List Row :=
  if n ≤ 0 then []
  else
    (List.insertionSort (fun r1 r2 => numOf (getVal r2 vc) ≤ numOf (getVal r1 vc))
      (rows.filter (fun r => isNumV (getVal r vc)))).take n.toNat

/-- `DataAnalyzer.find_top_countries`: the `[[country_col, value_col]]`
projection of `nlargest(n, value_col)`, or `None` when a required column
is unresolved. -/
def find_top_countries (t : Table) (n : ℤ) : Option (List (Value × Value)) :=
  match get_country_column t, get_value_column t with
  | some cc, some vc =>
      some ((nlargestRows n vc t.rows).map (fun r => (getVal r cc, getVal r vc)))
  | _, _ => none

/-! ### Growth rates (`DataAnalyzer.calculate_growth_rate`) -/

/-- A growth-rate cell: NaN (from a missing previous group value or a 0/0
division), plus or minus infinity (from division of a nonzero value by
zero), or a finite percentage.  These are exactly the IEEE float outcomes
of `pct_change() * 100`; finite results are exact for this computation. -/
inductive GrowthValue where
  | nan
  | inf
  | ninf
  | num (q : ℚ)
deriving DecidableEq

/-- The float value of `(cur / prev - 1) * 100`, the computation performed
by `pct_change() * 100`: division of a nonzero value by zero gives a
signed infinity and 0/0 gives NaN. -/
def growthVal (prev cur : ℚ) : GrowthValue :=
  if prev = 0 then
    (if cur = 0 then GrowthValue.nan
     else if 0 < cur then GrowthValue.inf
     else GrowthValue.ninf)
  else GrowthValue.num ((cur / prev - 1) * 100)

/-- The previous value within the group of `ent`: the value cell of the
last preceding row with the same entity key, as used by
`groupby(country_col)[value_col].pct_change()` (non-numeric cells are
padded over, mirroring the default `fill_method`). -/
def prevGroupVal (cc vc : String) (pre : List Row) (ent : Value) : Option ℚ :=
  pre.foldl (fun acc r =>
    if getVal r cc = ent then
      (match getVal r vc with
       | Value.num q => some q
       | _ => acc)
    else acc) none

/-- The growth cell of row `r` given the rows `pre` preceding it. -/
def growthOf (cc vc : String) (pre : List Row) (r : Row) : GrowthValue :=
  match getVal r vc, prevGroupVal cc vc pre (getVal r cc) with
  | Value.num cur, some prev => growthVal prev cur
  | _, _ => GrowthValue.nan

/-- Walk the sorted rows, attaching to each its growth cell computed from
the rows before it. -/
def pctGo (cc vc : String) (pre : List Row) : List Row → List (Row × GrowthValue)
  | [] => []
  | r :: rs => (r, growthOf cc vc pre r) :: pctGo cc vc (pre ++ [r]) rs

/-- Result of `calculate_growth_rate`: the sorted rows with their new
growth_rate column, or the input table passed through when a required
column is unresolved. -/
inductive GrowthResult where
  | table (l : List (Row × GrowthValue))
  | passthrough (t : Table)
deriving DecidableEq

/-- `DataAnalyzer.calculate_growth_rate`: resolve the country, value and
year columns; sort by (country, year); compute
`groupby(country)[value].pct_change() * 100` as the growth_rate column. -/
def calculate_growth_rate (t : Table) : GrowthResult :=
  match get_country_column t, get_value_column t, getYearColumn t with
  | some cc, some vc, some yc =>
      GrowthResult.table (pctGo cc vc [] (sortRows cc yc t.rows))
  | _, _, _ => GrowthResult.passthrough t

/-- The lower-bound predicate actually applied by `applyStart`, as a
single per-row test. -/
def startPred (yc : String) (sy : Option ℤ) (r : Row) : Bool :=
  match sy with
  | none => true
  | some s => if s = 0 then true else vge (getVal r yc) (s : ℚ)

/-- The upper-bound predicate actually applied by `applyEnd`. -/
def endPred (yc : String) (ey : Option ℤ) (r : Row) : Bool :=
  match ey with
  | none => true
  | some e => if e = 0 then true else vle (getVal r yc) (e : ℚ)

/-- Effective lower bound on a numeric time value: unbounded when the
bound is omitted or equals 0 (Python truthiness), else inclusive. -/
def lowerOK (sy : Option ℤ) (q : ℚ) : Bool :=
  match sy with
  | none => true
  | some s => decide (s = 0) || decide ((s : ℚ) ≤ q)

/-- Effective upper bound on a numeric time value: unbounded when the
bound is omitted or equals 0 (Python truthiness), else inclusive. -/
def upperOK (ey : Option ℤ) (q : ℚ) : Bool :=
  match ey with
  | none => true
  | some e => decide (e = 0) || decide (q ≤ (e : ℚ))

/-! ### Claim-side reference definition for the time-range filter -/

/-- Modelled from the spec: the claimed behaviour of filter_by_time_range,
in which every supplied bound (including a bound equal to 0) is applied
inclusively and only an absent bound is unbounded.  Used to compare
against `filter_by_year`, which follows the source. -/
def filterByTimeRangeClaim (sy ey : Option ℤ) (t : Table) : Table :=
  match getYearColumn t with
  | none => t
  | some yc =>
      { t with
        rows := t.rows.filter (fun r =>
          (match sy with
           | none => true
           | some s => vge (getVal r yc) (s : ℚ)) &&
          (match ey with
           | none => true
           | some e => vle (getVal r yc) (e : ℚ))) }

/-! ### Concrete tables used by the witnesses and counterexamples -/

/-- Single entity with time-ordered values 100, 150, 75 (rows listed out
of time order to exercise the sort). -/
def c1Table : Table :=
  { cols := ["country", "time", "value"]
    rows :=
      [[("country", Value.str "Albania"), ("time", Value.num 2), ("value", Value.num 150)],
       [("country", Value.str "Albania"), ("time", Value.num 1), ("value", Value.num 100)],
       [("country", Value.str "Albania"), ("time", Value.num 3), ("value", Value.num 75)]] }

/-- The scenario rows [("Germany",2000,100),("Germany",2001,110),("France",2000,50)]. -/
def c2Table : Table :=
  { cols := ["country", "time", "value"]
    rows :=
      [[("country", Value.str "Germany"), ("time", Value.num 2000), ("value", Value.num 100)],
       [("country", Value.str "Germany"), ("time", Value.num 2001), ("value", Value.num 110)],
       [("country", Value.str "France"), ("time", Value.num 2000), ("value", Value.num 50)]] }

/-- A table whose only country-like column is "Country Name", holding a
non-European entity. -/
def c4Table : Table :=
  { cols := ["Country Name"]
    rows := [[("Country Name", Value.str "Japan")]] }

/-- One entity whose value at the first time point is 0. -/
def c5Table : Table :=
  { cols := ["country", "time", "value"]
    rows :=
      [[("country", Value.str "Albania"), ("time", Value.num 1), ("value", Value.num 0)],
       [("country", Value.str "Albania"), ("time", Value.num 2), ("value", Value.num 100)]] }

/-- A table with a resolvable time column holding the value -5. -/
def c8Table : Table :=
  { cols := ["year"]
    rows := [[("year", Value.num (-5))]] }

/-! ## Lemmas about the orderings -/

theorem charListLe_total : ∀ l1 l2 : List Char, charListLe l1 l2 = true ∨ charListLe l2 l1 = true
  | [], _ => Or.inl rfl
  | _ :: _, [] => Or.inr rfl
  | a :: as, b :: bs => by
    rcases lt_trichotomy a b with h | h | h
    · left; simp [charListLe, h]
    · subst h
      rcases charListLe_total as bs with ih | ih
      · left; simp [charListLe, ih]
      · right; simp [charListLe, ih]
    · right; simp [charListLe, h]

theorem charListLe_trans :
    ∀ l1 l2 l3 : List Char, charListLe l1 l2 = true → charListLe l2 l3 = true →
      charListLe l1 l3 = true
  | [], _, _, _, _ => rfl
  | _ :: _, [], _, h12, _ => by simp [charListLe] at h12
  | _ :: _, _ :: _, [], _, h23 => by simp [charListLe] at h23
  | a :: as, b :: bs, c :: cs, h12, h23 => by
    simp only [charListLe, Bool.or_eq_true, Bool.and_eq_true, decide_eq_true_eq] at h12 h23 ⊢
    rcases h12 with h | ⟨hab, h12'⟩
    · rcases h23 with h' | ⟨hbc, _⟩
      · exact Or.inl (lt_trans h h')
      · subst hbc; exact Or.inl h
    · subst hab
      rcases h23 with h' | ⟨hbc, h23'⟩
      · exact Or.inl h'
      · subst hbc; exact Or.inr ⟨rfl, charListLe_trans as bs cs h12' h23'⟩

theorem charListLe_antisymm :
    ∀ l1 l2 : List Char, charListLe l1 l2 = true → charListLe l2 l1 = true → l1 = l2
  | [], [], _, _ => rfl
  | [], _ :: _, _, h21 => by simp [charListLe] at h21
  | _ :: _, [], h12, _ => by simp [charListLe] at h12
  | a :: as, b :: bs, h12, h21 => by
    simp only [charListLe, Bool.or_eq_true, Bool.and_eq_true, decide_eq_true_eq] at h12 h21
    rcases h12 with h | ⟨hab, h12'⟩
    · rcases h21 with h' | ⟨hba, _⟩
      · exact absurd h' (lt_asymm h)
      · subst hba; exact absurd h (lt_irrefl _)
    · subst hab
      rcases h21 with h' | ⟨_, h21'⟩
      · exact absurd h' (lt_irrefl _)
      · rw [charListLe_antisymm as bs h12' h21']

theorem strLe_total (a b : String) : strLe a b = true ∨ strLe b a = true :=
  charListLe_total a.data b.data

theorem strLe_trans {a b c : String} (h1 : strLe a b = true) (h2 : strLe b c = true) :
    strLe a c = true :=
  charListLe_trans a.data b.data c.data h1 h2

theorem strLe_antisymm {a b : String} (h1 : strLe a b = true) (h2 : strLe b a = true) :
    a = b :=
  String.ext (charListLe_antisymm a.data b.data h1 h2)

theorem valueLe_total (a b : Value) : valueLe a b = true ∨ valueLe b a = true := by
  cases a with
  | num x =>
    cases b with
    | num y => simpa [valueLe] using le_total x y
    | str s => left; rfl
    | missing => left; rfl
  | str s =>
    cases b with
    | num y => right; rfl
    | str u => exact strLe_total s u
    | missing => left; rfl
  | missing =>
    cases b with
    | num y => right; rfl
    | str u => right; rfl
    | missing => left; rfl

theorem valueLe_trans {a b c : Value} (h1 : valueLe a b = true) (h2 : valueLe b c = true) :
    valueLe a c = true := by
  cases a <;> cases b <;> cases c <;>
    simp only [valueLe, decide_eq_true_eq] at h1 h2 ⊢ <;>
    first
      | rfl
      | exact le_trans h1 h2
      | exact strLe_trans h1 h2
      | exact h1
      | exact h2
      | exact absurd h1 (by decide)
      | exact absurd h2 (by decide)

theorem valueLe_antisymm {a b : Value} (h1 : valueLe a b = true) (h2 : valueLe b a = true) :
    a = b := by
  cases a <;> cases b <;>
    simp only [valueLe, decide_eq_true_eq] at h1 h2 <;>
    first
      | rfl
      | exact congrArg Value.num (le_antisymm h1 h2)
      | exact congrArg Value.str (strLe_antisymm h1 h2)
      | exact absurd h1 (by decide)
      | exact absurd h2 (by decide)

theorem valueLe_refl (a : Value) : valueLe a a = true := by
  rcases valueLe_total a a with h | h <;> exact h

theorem valueLt_iff {a b : Value} :
    valueLt a b = true ↔ (valueLe a b = true ∧ ¬ valueLe b a = true) := by
  simp [valueLt]

theorem valueLe_of_not_lt {a b : Value} (h : ¬ valueLt a b = true) : valueLe b a = true := by
  rw [valueLt_iff] at h
  push_neg at h
  by_cases hab : valueLe a b = true
  · exact h hab
  · rcases valueLe_total a b with h' | h'
    · exact absurd h' hab
    · exact h'

theorem valueLt_trans {a b c : Value} (h1 : valueLt a b = true) (h2 : valueLt b c = true) :
    valueLt a c = true := by
  rw [valueLt_iff] at h1 h2 ⊢
  refine ⟨valueLe_trans h1.1 h2.1, fun hca => ?_⟩
  exact h2.2 (valueLe_trans hca h1.1)

theorem valueLt_of_lt_of_le {a b c : Value} (h1 : valueLt a b = true)
    (h2 : valueLe b c = true) : valueLt a c = true := by
  rw [valueLt_iff] at h1 ⊢
  refine ⟨valueLe_trans h1.1 h2, fun hca => ?_⟩
  exact h1.2 (valueLe_trans h2 hca)

theorem valueLt_of_le_of_lt {a b c : Value} (h1 : valueLe a b = true)
    (h2 : valueLt b c = true) : valueLt a c = true := by
  rw [valueLt_iff] at h2 ⊢
  refine ⟨valueLe_trans h1 h2.1, fun hca => ?_⟩
  exact h2.2 (valueLe_trans hca h1)

theorem rowLe_total (cc yc : String) (r1 r2 : Row) :
    rowLe cc yc r1 r2 = true ∨ rowLe cc yc r2 r1 = true := by
  simp only [rowLe, Bool.or_eq_true, Bool.and_eq_true, decide_eq_true_eq]
  by_cases he : getVal r1 cc = getVal r2 cc
  · rcases valueLe_total (getVal r1 yc) (getVal r2 yc) with h | h
    · exact Or.inl (Or.inr ⟨he, h⟩)
    · exact Or.inr (Or.inr ⟨he.symm, h⟩)
  · rcases valueLe_total (getVal r1 cc) (getVal r2 cc) with h | h
    · refine Or.inl (Or.inl ?_)
      rw [valueLt_iff]
      exact ⟨h, fun h' => he (valueLe_antisymm h h')⟩
    · refine Or.inr (Or.inl ?_)
      rw [valueLt_iff]
      exact ⟨h, fun h' => he (valueLe_antisymm h' h)⟩

theorem rowLe_trans (cc yc : String) (r1 r2 r3 : Row) (h12 : rowLe cc yc r1 r2 = true)
    (h23 : rowLe cc yc r2 r3 = true) : rowLe cc yc r1 r3 = true := by
  simp only [rowLe, Bool.or_eq_true, Bool.and_eq_true, decide_eq_true_eq] at h12 h23 ⊢
  rcases h12 with h | ⟨he12, ht12⟩
  · rcases h23 with h' | ⟨he23, _⟩
    · exact Or.inl (valueLt_trans h h')
    · exact Or.inl (he23 ▸ h)
  · rcases h23 with h' | ⟨he23, ht23⟩
    · exact Or.inl (he12 ▸ h')
    · exact Or.inr ⟨he12.trans he23, valueLe_trans ht12 ht23⟩

theorem sortRows_perm (cc yc : String) (rows : List Row) :
    (sortRows cc yc rows).Perm rows :=
  List.perm_insertionSort _ _

theorem sortRows_sorted (cc yc : String) (rows : List Row) :
    (sortRows cc yc rows).Sorted (fun r1 r2 => rowLe cc yc r1 r2 = true) := by
  haveI : IsTotal Row (fun r1 r2 => rowLe cc yc r1 r2 = true) := ⟨rowLe_total cc yc⟩
  haveI : IsTrans Row (fun r1 r2 => rowLe cc yc r1 r2 = true) :=
    ⟨fun r1 r2 r3 => rowLe_trans cc yc r1 r2 r3⟩
  exact List.sorted_insertionSort _ _

/-! ## Lemmas about column resolution -/

theorem resolveFirst_eq_some :
    ∀ (cands : List String) (cols : List String) (c : String),
      resolveFirst cands cols = some c →
        c ∈ cands ∧ c ∈ cols ∧
          ∃ pre suf, cands = pre ++ c :: suf ∧ ∀ d ∈ pre, d ∉ cols
  | [], _, _, h => by simp [resolveFirst] at h
  | a :: as, cols, c, h => by
    by_cases ha : cols.contains a = true
    · rw [resolveFirst, List.find?_cons_of_pos _ ha] at h
      obtain rfl : a = c := by simpa using h
      refine ⟨List.mem_cons_self _ _, ?_, [], as, rfl, by simp⟩
      simpa [List.elem_iff] using ha
    · rw [resolveFirst, List.find?_cons_of_neg _ ha] at h
      obtain ⟨h1, h2, pre, suf, h3, h4⟩ := resolveFirst_eq_some as cols c h
      refine ⟨List.mem_cons_of_mem _ h1, h2, a :: pre, suf, by simp [h3], ?_⟩
      intro d hd
      rcases List.mem_cons.mp hd with rfl | hd
      · simpa [List.elem_iff] using ha
      · exact h4 d hd

theorem resolveFirst_eq_none {cands cols : List String}
    (h : resolveFirst cands cols = none) : ∀ d ∈ cands, d ∉ cols := by
  intro d hd
  have := List.find?_eq_none.mp h d hd
  simpa [List.elem_iff] using this

/-! ## Lemmas about cleaning -/

theorem dedupFirst_nodup {α : Type} [DecidableEq α] (l : List α) : (dedupFirst l).Nodup :=
  List.nodup_reverse.mpr (List.nodup_dedup _)

theorem dedupFirst_eq_self {α : Type} [DecidableEq α] {l : List α} (h : l.Nodup) :
    dedupFirst l = l := by
  unfold dedupFirst
  rw [List.dedup_eq_self.mpr (List.nodup_reverse.mpr h), List.reverse_reverse]

/-! ## Lemmas about filtering -/

theorem applyStart_eq_filter (yc : String) (sy : Option ℤ) (rows : List Row) :
    applyStart yc sy rows = rows.filter (startPred yc sy) := by
  cases sy with
  | none => exact (List.filter_eq_self.mpr (fun a _ => by simp [startPred])).symm
  | some s =>
    simp only [applyStart]
    by_cases hs : s = 0
    · rw [if_pos hs]
      exact (List.filter_eq_self.mpr (fun a _ => by simp [startPred, hs])).symm
    · rw [if_neg hs]
      exact List.filter_congr (fun a _ => by simp [startPred, hs])

theorem applyEnd_eq_filter (yc : String) (ey : Option ℤ) (rows : List Row) :
    applyEnd yc ey rows = rows.filter (endPred yc ey) := by
  cases ey with
  | none => exact (List.filter_eq_self.mpr (fun a _ => by simp [endPred])).symm
  | some e =>
    simp only [applyEnd]
    by_cases he : e = 0
    · rw [if_pos he]
      exact (List.filter_eq_self.mpr (fun a _ => by simp [endPred, he])).symm
    · rw [if_neg he]
      exact List.filter_congr (fun a _ => by simp [endPred, he])

theorem filter_by_year_rows {t : Table} {yc : String} (sy ey : Option ℤ)
    (hy : getYearColumn t = some yc) :
    (filter_by_year sy ey t).rows =
      t.rows.filter (fun r => startPred yc sy r && endPred yc ey r) := by
  simp only [filter_by_year, hy, applyStart_eq_filter, applyEnd_eq_filter,
    List.filter_filter]
  exact List.filter_congr (fun r _ => Bool.and_comm _ _)

theorem filter_by_year_cols (sy ey : Option ℤ) (t : Table) :
    (filter_by_year sy ey t).cols = t.cols := by
  rcases hy : getYearColumn t with _ | yc <;> simp [filter_by_year, hy]

theorem filter_countries_cols (allowed : List String) (t : Table) :
    (filter_countries allowed t).cols = t.cols := by
  rcases hc : filterEuropeanCountryCol t with _ | cc <;> simp [filter_countries, hc]

/-! ## Lemmas about the growth walk -/

theorem pctGo_map_fst (cc vc : String) :
    ∀ (rs pre : List Row), (pctGo cc vc pre rs).map Prod.fst = rs
  | [], _ => rfl
  | r :: rs, pre => by
    rw [pctGo]
    simp only [List.map_cons]
    rw [pctGo_map_fst cc vc rs (pre ++ [r])]

theorem pctGo_split (cc vc : String) :
    ∀ (rs pre1 : List Row) (l1 : List (Row × GrowthValue)) (p : Row × GrowthValue)
      (l2 : List (Row × GrowthValue)),
      pctGo cc vc pre1 rs = l1 ++ p :: l2 →
        p.2 = growthOf cc vc (pre1 ++ l1.map Prod.fst) p.1
  | [], _, l1, _, _, h => by cases l1 <;> simp [pctGo] at h
  | r :: rs, pre1, l1, p, l2, h => by
    rw [pctGo] at h
    cases l1 with
    | nil =>
      rw [List.nil_append] at h
      injection h with h1 h2
      subst h1
      simp
    | cons q l1' =>
      rw [List.cons_append] at h
      injection h with h1 h2
      have ih := pctGo_split cc vc rs (pre1 ++ [r]) l1' p l2 h2
      have hl : (pre1 ++ [r]) ++ l1'.map Prod.fst = pre1 ++ (q :: l1').map Prod.fst := by
        rw [← h1]
        simp [List.append_assoc]
      rw [ih, hl]

theorem Table.ext' {a b : Table} (h1 : a.cols = b.cols) (h2 : a.rows = b.rows) : a = b := by
  cases a
  cases b
  simp_all

theorem dropna_idem (l : List Row) : dropna (dropna l) = dropna l := by
  unfold dropna
  rw [List.filter_filter]
  exact List.filter_congr (fun a _ => Bool.and_self _)

/-! ## Claim theorems -/

/-- C7: clean removes exact-duplicate rows and rows with a missing value,
and is idempotent: clean (clean T) = clean T for every table T. -/
theorem clean_data_idempotent (t : Table) : clean_data (clean_data t) = clean_data t := by
  apply Table.ext'
  · rfl
  · show dropna (dedupFirst (dropna (dedupFirst t.rows))) = dropna (dedupFirst t.rows)
    have h1 : (dropna (dedupFirst t.rows)).Nodup :=
      List.Nodup.filter _ (dedupFirst_nodup t.rows)
    rw [dedupFirst_eq_self h1, dropna_idem]

/-- C6: the time-range filter and the entity filter commute: for every
table, allow-list and pair of bounds, applying them in either order gives
the same table. -/
theorem filters_commute (allowed : List String) (sy ey : Option ℤ) (t : Table) :
    filter_by_year sy ey (filter_countries allowed t) =
      filter_countries allowed (filter_by_year sy ey t) := by
  rcases hy : getYearColumn t with _ | yc
  · have hy2 : getYearColumn (filter_countries allowed t) = none := by
      unfold getYearColumn at hy ⊢
      rw [filter_countries_cols]
      exact hy
    simp [filter_by_year, hy, hy2]
  · have hy2 : getYearColumn (filter_countries allowed t) = some yc := by
      unfold getYearColumn at hy ⊢
      rw [filter_countries_cols]
      exact hy
    rcases hc : filterEuropeanCountryCol t with _ | cc
    · have hc2 : filterEuropeanCountryCol (filter_by_year sy ey t) = none := by
        unfold filterEuropeanCountryCol at hc ⊢
        rw [filter_by_year_cols]
        exact hc
      simp [filter_countries, hc, hc2]
    · have hc2 : filterEuropeanCountryCol (filter_by_year sy ey t) = some cc := by
        unfold filterEuropeanCountryCol at hc ⊢
        rw [filter_by_year_cols]
        exact hc
      apply Table.ext'
      · rw [filter_by_year_cols, filter_countries_cols, filter_countries_cols,
          filter_by_year_cols]
      · have hrows1 : (filter_countries allowed t).rows =
            t.rows.filter (fun r => vin (getVal r cc) allowed) := by
          simp [filter_countries, hc]
        have hrows2 : (filter_countries allowed (filter_by_year sy ey t)).rows =
            (filter_by_year sy ey t).rows.filter (fun r => vin (getVal r cc) allowed) := by
          simp [filter_countries, hc2]
        rw [filter_by_year_rows sy ey hy2, hrows1, hrows2, filter_by_year_rows sy ey hy,
          List.filter_filter, List.filter_filter]
        exact List.filter_congr (fun r _ => Bool.and_comm _ _)

/-- C4 (amended): _get_country_column resolves the EntityKey role through
the candidate list geo, country, Country, GEO, Country Name in priority
order, but the inline loop of filter_european_countries checks only geo,
country, Country, GEO; each returns the first candidate present among the
table's columns (never a name absent from the table) and reports
Unresolved when no candidate is present. -/
theorem entity_resolution (t : Table) (c : String) :
    (get_country_column t = some c →
      c ∈ countryCandidates ∧ c ∈ t.cols ∧
        ∃ pre suf, countryCandidates = pre ++ c :: suf ∧ ∀ d ∈ pre, d ∉ t.cols) ∧
    (filterEuropeanCountryCol t = some c →
      c ∈ filterCountryCandidates ∧ c ∈ t.cols ∧
        ∃ pre suf, filterCountryCandidates = pre ++ c :: suf ∧ ∀ d ∈ pre, d ∉ t.cols) ∧
    (get_country_column t = none → ∀ d ∈ countryCandidates, d ∉ t.cols) ∧
    (filterEuropeanCountryCol t = none → ∀ d ∈ filterCountryCandidates, d ∉ t.cols) :=
  ⟨fun h => resolveFirst_eq_some _ _ _ h,
   fun h => resolveFirst_eq_some _ _ _ h,
   fun h => resolveFirst_eq_none h,
   fun h => resolveFirst_eq_none h⟩

/-- C4, counterexample to the claim as stated: on a table whose only
country-like column is "Country Name", _get_country_column resolves the
EntityKey role but the loop in filter_european_countries does not (its
candidate list lacks "Country Name"), so that filter leaves a row with the
non-European entity "Japan" in place.  The stages do not check the same
fixed candidate list. -/
theorem entity_resolution_counterexample :
    get_country_column c4Table = some "Country Name" ∧
    filterEuropeanCountryCol c4Table = none ∧
    filter_european_countries c4Table = c4Table := by
  decide

/-- C4, witness: the amended theorem applied to the concrete table. -/
theorem entity_resolution_witness :
    "Country Name" ∈ countryCandidates ∧ "Country Name" ∈ c4Table.cols ∧
      ∃ pre suf, countryCandidates = pre ++ "Country Name" :: suf ∧
        ∀ d ∈ pre, d ∉ c4Table.cols :=
  (entity_resolution c4Table "Country Name").1 (by decide)

/-- C8 (amended): when the TimeKey resolves and the time column is
numeric, filter_by_year keeps exactly the rows whose time value lies
within the effective bounds, where a bound counts as absent (unbounded)
not only when it is omitted but also when it equals 0, because of the
Python truthiness test `if start_year:`; a nonzero bound is inclusive. -/
theorem filter_by_year_bounds (t : Table) (yc : String) (sy ey : Option ℤ)
    (hy : getYearColumn t = some yc)
    (hnum : ∀ r ∈ t.rows, isNumV (getVal r yc) = true) :
    (filter_by_year sy ey t).rows =
      t.rows.filter (fun r =>
        lowerOK sy (numOf (getVal r yc)) && upperOK ey (numOf (getVal r yc))) := by
  rw [filter_by_year_rows sy ey hy]
  refine List.filter_congr (fun r hr => ?_)
  rcases hval : getVal r yc with q | s | _
  all_goals
    first
    | · have h1 : startPred yc sy r = lowerOK sy (numOf (Value.num q)) := by
          cases sy with
          | none => rfl
          | some s =>
            by_cases hs : s = 0
            · simp [startPred, lowerOK, hs]
            · simp [startPred, lowerOK, hs, hval, vge, numOf]
        have h2 : endPred yc ey r = upperOK ey (numOf (Value.num q)) := by
          cases ey with
          | none => rfl
          | some e =>
            by_cases he : e = 0
            · simp [endPred, upperOK, he]
            · simp [endPred, upperOK, he, hval, vle, numOf]
        rw [h1, h2]
    | · have := hnum r hr
        rw [hval] at this
        simp [isNumV] at this

/-- C8, counterexample to the claim as stated: with min_time = 0 the
source filter keeps a row whose time value is -5 (the bound 0 is falsy in
Python and is silently skipped), while the claimed behaviour would drop
it. -/
theorem filter_by_year_zero_counterexample :
    filter_by_year (some 0) none c8Table = c8Table ∧
    filterByTimeRangeClaim (some 0) none c8Table = { cols := ["year"], rows := [] } ∧
    filter_by_year (some 0) none c8Table ≠ filterByTimeRangeClaim (some 0) none c8Table := by
  decide

/-- C8, witness: the amended theorem applied to the concrete table with
nonzero bounds. -/
theorem filter_by_year_bounds_witness :
    (filter_by_year (some 1) (some 2020) c8Table).rows =
      c8Table.rows.filter (fun r =>
        lowerOK (some 1) (numOf (getVal r "year")) &&
          upperOK (some 2020) (numOf (getVal r "year"))) :=
  filter_by_year_bounds c8Table "year" (some 1) (some 2020) (by decide) (by decide)

/-- C3 (amended): find_top_countries never signals an error for n ≤ 0; it
returns an empty selection (pandas nlargest yields an empty frame there),
and when n is at least the number of rows of an all-numeric value column
it returns all available rows. -/
theorem find_top_countries_n (t : Table) (n : ℤ) (cc vc : String)
    (hc : get_country_column t = some cc) (hv : get_value_column t = some vc) :
    (n ≤ 0 → find_top_countries t n = some []) ∧
    ((∀ r ∈ t.rows, isNumV (getVal r vc) = true) → (t.rows.length : ℤ) ≤ n →
      ∃ l, find_top_countries t n = some l ∧ l.length = t.rows.length) := by
  constructor
  · intro hn
    simp [find_top_countries, hc, hv, nlargestRows, hn]
  · intro hnum hlen
    by_cases hn : n ≤ 0
    · have h0 : t.rows.length = 0 := by
        have : (t.rows.length : ℤ) ≤ 0 := le_trans hlen hn
        exact_mod_cast le_antisymm this (by positivity)
      refine ⟨[], ?_, by simp [h0]⟩
      simp [find_top_countries, hc, hv, nlargestRows, hn]
    · have hfilter : t.rows.filter (fun r => isNumV (getVal r vc)) = t.rows :=
        List.filter_eq_self.mpr hnum
      have hsortlen :
          (List.insertionSort
            (fun r1 r2 => numOf (getVal r2 vc) ≤ numOf (getVal r1 vc)) t.rows).length =
            t.rows.length :=
        List.length_insertionSort _ _
      have htake : t.rows.length ≤ n.toNat := by
        have h1 : ((t.rows.length : ℤ)).toNat ≤ n.toNat := Int.toNat_le_toNat hlen
        simpa using h1
      refine ⟨(nlargestRows n vc t.rows).map (fun r => (getVal r cc, getVal r vc)), ?_, ?_⟩
      · simp [find_top_countries, hc, hv]
      · rw [List.length_map, nlargestRows, if_neg hn, hfilter, List.length_take, hsortlen]
        exact Nat.min_eq_right htake

/-- C3, counterexample to the claim as stated: for n = 0 and n = -7 on a
table with three rows (and resolved columns), find_top_countries returns
an empty selection; in this embedding of the source there is no
InvalidArgument signal at all, the call simply returns a value. -/
theorem find_top_countries_counterexample :
    find_top_countries c2Table 0 = some [] ∧
    find_top_countries c2Table (-7) = some [] := by
  decide

/-- C3, witness: n = 10 on a three-row table returns exactly the three
rows. -/
theorem find_top_countries_witness :
    ∃ l, find_top_countries c2Table 10 = some l ∧ l.length = c2Table.rows.length :=
  (find_top_countries_n c2Table 10 "country" "value" (by decide) (by decide)).2
    (by decide) (by decide)

/-- C5 (amended): when the three roles resolve, a row whose immediately
preceding same-entity value is zero receives the IEEE result of the float
division performed by pct_change: NaN when the row's own value is also
zero, +infinity when it is positive, -infinity when it is negative — not
a null/NaN "undefined" marker in the nonzero cases.  The computation is
total (no exception) and the row is kept: the output rows are a
permutation of the input rows. -/
theorem growth_rate_zero_prev (t : Table) (cc vc yc : String)
    (hc : get_country_column t = some cc) (hv : get_value_column t = some vc)
    (hy : getYearColumn t = some yc) :
    ∃ l, calculate_growth_rate t = GrowthResult.table l ∧
      (l.map Prod.fst).Perm t.rows ∧
      ∀ l1 p l2, l = l1 ++ p :: l2 →
        ∀ cur, prevGroupVal cc vc (l1.map Prod.fst) (getVal p.1 cc) = some 0 →
          getVal p.1 vc = Value.num cur →
          p.2 = (if cur = 0 then GrowthValue.nan
                 else if 0 < cur then GrowthValue.inf else GrowthValue.ninf) := by
  refine ⟨pctGo cc vc [] (sortRows cc yc t.rows), ?_, ?_, ?_⟩
  · simp [calculate_growth_rate, hc, hv, hy]
  · rw [pctGo_map_fst]
    exact sortRows_perm cc yc t.rows
  · intro l1 p l2 hsplit cur hprev hcur
    have h2 := pctGo_split cc vc _ [] l1 p l2 hsplit
    rw [List.nil_append] at h2
    rw [h2]
    unfold growthOf
    rw [hcur, hprev]
    show growthVal 0 cur = _
    rw [growthVal, if_pos rfl]

/-- C5, counterexample to the claim as stated: for an entity with values
0 then 100, the second row's growth_rate is +infinity (100 divided by the
previous value 0), which is not the NaN "undefined" sentinel; the row is
still present in the output. -/
theorem growth_rate_zero_prev_counterexample :
    calculate_growth_rate c5Table =
      GrowthResult.table
        [([("country", Value.str "Albania"), ("time", Value.num 1), ("value", Value.num 0)],
          GrowthValue.nan),
         ([("country", Value.str "Albania"), ("time", Value.num 2), ("value", Value.num 100)],
          GrowthValue.inf)] ∧
    GrowthValue.inf ≠ GrowthValue.nan := by
  decide

/-- C5, witness: the amended theorem applied to the concrete table. -/
theorem growth_rate_zero_prev_witness :
    ∃ l, calculate_growth_rate c5Table = GrowthResult.table l ∧
      (l.map Prod.fst).Perm c5Table.rows := by
  obtain ⟨l, h1, h2, _⟩ :=
    growth_rate_zero_prev c5Table "country" "value" "time" (by decide) (by decide) (by decide)
  exact ⟨l, h1, h2⟩

/-- C1: when EntityKey, TimeKey and ValueKey all resolve,
calculate_growth_rate returns the input rows sorted by (entity ascending,
time ascending) — the output row list is a sorted permutation of the
input — and attaches to each row the growth cell
(value - prev_value) / prev_value * 100 computed against the nearest
preceding row of the same entity (the previous row of the entity's run),
with the NaN null marker on each entity's first row; on an entity with
time-ordered values [100, 150, 75] the growth column is
[null, 50, -50]. -/
theorem calculate_growth_rate_spec (t : Table) (cc vc yc : String)
    (hc : get_country_column t = some cc) (hv : get_value_column t = some vc)
    (hy : getYearColumn t = some yc) :
    (∃ l, calculate_growth_rate t = GrowthResult.table l ∧
      (l.map Prod.fst).Perm t.rows ∧
      (l.map Prod.fst).Sorted (fun r1 r2 => rowLe cc yc r1 r2 = true) ∧
      ∀ l1 p l2, l = l1 ++ p :: l2 →
        (prevGroupVal cc vc (l1.map Prod.fst) (getVal p.1 cc) = none →
          p.2 = GrowthValue.nan) ∧
        (∀ prev cur, prevGroupVal cc vc (l1.map Prod.fst) (getVal p.1 cc) = some prev →
          getVal p.1 vc = Value.num cur → prev ≠ 0 →
          p.2 = GrowthValue.num ((cur - prev) / prev * 100))) ∧
    calculate_growth_rate c1Table =
      GrowthResult.table
        [([("country", Value.str "Albania"), ("time", Value.num 1), ("value", Value.num 100)],
          GrowthValue.nan),
         ([("country", Value.str "Albania"), ("time", Value.num 2), ("value", Value.num 150)],
          GrowthValue.num 50),
         ([("country", Value.str "Albania"), ("time", Value.num 3), ("value", Value.num 75)],
          GrowthValue.num (-50))] := by
  constructor
  · refine ⟨pctGo cc vc [] (sortRows cc yc t.rows), ?_, ?_, ?_, ?_⟩
    · simp [calculate_growth_rate, hc, hv, hy]
    · rw [pctGo_map_fst]
      exact sortRows_perm cc yc t.rows
    · rw [pctGo_map_fst]
      exact sortRows_sorted cc yc t.rows
    · intro l1 p l2 hsplit
      have h2 := pctGo_split cc vc _ [] l1 p l2 hsplit
      rw [List.nil_append] at h2
      constructor
      · intro hnone
        rw [h2]
        unfold growthOf
        rw [hnone]
        cases getVal p.1 vc <;> rfl
      · intro prev cur hsome hcur hne
        rw [h2]
        unfold growthOf
        rw [hcur, hsome]
        show growthVal prev cur = _
        rw [growthVal, if_neg hne]
        congr 1
        field_simp
  · have hs : sortRows "country" "time" c1Table.rows =
        [[("country", Value.str "Albania"), ("time", Value.num 1), ("value", Value.num 100)],
         [("country", Value.str "Albania"), ("time", Value.num 2), ("value", Value.num 150)],
         [("country", Value.str "Albania"), ("time", Value.num 3), ("value", Value.num 75)]] := by
      decide
    have hres : calculate_growth_rate c1Table =
        GrowthResult.table (pctGo "country" "value" []
          (sortRows "country" "time" c1Table.rows)) := by
      simp [calculate_growth_rate,
        show get_country_column c1Table = some "country" from by decide,
        show get_value_column c1Table = some "value" from by decide,
        show getYearColumn c1Table = some "time" from by decide]
    rw [hres, hs]
    norm_num [pctGo, growthOf, prevGroupVal, growthVal, getVal, List.lookup,
      show ("value" == "country") = false from by decide,
      show ("value" == "time") = false from by decide,
      show ("value" == "value") = true from by decide]

/-- C1, witness: the theorem applied to the concrete table. -/
theorem calculate_growth_rate_spec_witness :
    ∃ l, calculate_growth_rate c1Table = GrowthResult.table l ∧
      (l.map Prod.fst).Perm c1Table.rows ∧
      (l.map Prod.fst).Sorted (fun r1 r2 => rowLe "country" "time" r1 r2 = true) := by
  obtain ⟨⟨l, h1, h2, h3, _⟩, _⟩ :=
    calculate_growth_rate_spec c1Table "country" "value" "time"
      (by decide) (by decide) (by decide)
  exact ⟨l, h1, h2, h3⟩

theorem qmean_total (l : List ℚ) (m : ℚ) (h : qmean l = Value.num m) :
    Value.num (qsum l) = Value.num ((l.length : ℚ) * m) := by
  cases l with
  | nil => simp [qmean] at h
  | cons x xs =>
    rw [qmean] at h
    injection h with h'
    subst h'
    have hlen : (((x :: xs).length : ℕ) : ℚ) ≠ 0 :=
      Nat.cast_ne_zero.mpr (Nat.succ_ne_zero xs.length)
    congr 1
    field_simp

/-- C2: with EntityKey and ValueKey resolved, aggregate_by_country yields
exactly one record per distinct (non-missing) EntityKey value — the
record keys are a duplicate-free permutation of the distinct keys — and
each record carries the mean, min, max and sum of the ValueKey column
within its group, with sum = count * mean; on the Germany/France scenario
rows it yields France{50,50,50,50} and Germany{105,100,110,210}. -/
theorem aggregate_by_country_spec (t : Table) (cc vc : String)
    (hc : get_country_column t = some cc) (hv : get_value_column t = some vc) :
    (∃ recs, aggregate_by_country t = AggResult.agg recs ∧
      (recs.map AggRecord.country).Perm
        (dedupFirst ((t.rows.map (fun r => getVal r cc)).filter notMissingB)) ∧
      (recs.map AggRecord.country).Nodup ∧
      ∀ rec ∈ recs,
        rec.average = qmean (groupVals vc (groupRows cc rec.country t.rows)) ∧
        rec.minimum = qminV (groupVals vc (groupRows cc rec.country t.rows)) ∧
        rec.maximum = qmaxV (groupVals vc (groupRows cc rec.country t.rows)) ∧
        rec.total = Value.num (qsum (groupVals vc (groupRows cc rec.country t.rows))) ∧
        ∀ m, rec.average = Value.num m →
          rec.total =
            Value.num (((groupVals vc (groupRows cc rec.country t.rows)).length : ℚ) * m)) ∧
    aggregate_by_country c2Table =
      AggResult.agg
        [{ country := Value.str "France", average := Value.num 50,
           minimum := Value.num 50, maximum := Value.num 50, total := Value.num 50 },
         { country := Value.str "Germany", average := Value.num 105,
           minimum := Value.num 100, maximum := Value.num 110, total := Value.num 210 }] := by
  constructor
  · have hmap : ((sortedGroupKeys cc t.rows).map (aggRecordFor cc vc t.rows)).map
        AggRecord.country = sortedGroupKeys cc t.rows := by
      rw [List.map_map]
      have hcomp : (AggRecord.country ∘ aggRecordFor cc vc t.rows) = id :=
        funext fun k => rfl
      rw [hcomp, List.map_id]
    refine ⟨(sortedGroupKeys cc t.rows).map (aggRecordFor cc vc t.rows), ?_, ?_, ?_, ?_⟩
    · simp [aggregate_by_country, hc, hv]
    · rw [hmap]
      exact List.perm_insertionSort _ _
    · rw [hmap]
      exact ((List.perm_insertionSort _ _).nodup_iff).mpr (dedupFirst_nodup _)
    · intro rec hrec
      obtain ⟨k, hk, rfl⟩ := List.mem_map.mp hrec
      exact ⟨rfl, rfl, rfl, rfl, fun m hm =>
        qmean_total (groupVals vc (groupRows cc k t.rows)) m hm⟩
  · have hk : sortedGroupKeys "country" c2Table.rows =
        [Value.str "France", Value.str "Germany"] := by decide
    have hres : aggregate_by_country c2Table =
        AggResult.agg ((sortedGroupKeys "country" c2Table.rows).map
          (aggRecordFor "country" "value" c2Table.rows)) := by
      simp [aggregate_by_country,
        show get_country_column c2Table = some "country" from by decide,
        show get_value_column c2Table = some "value" from by decide]
    rw [hres, hk]
    have hg1 : groupRows "country" (Value.str "France") c2Table.rows =
        [[("country", Value.str "France"), ("time", Value.num 2000),
          ("value", Value.num 50)]] := by
      decide
    have hg2 : groupRows "country" (Value.str "Germany") c2Table.rows =
        [[("country", Value.str "Germany"), ("time", Value.num 2000),
          ("value", Value.num 100)],
         [("country", Value.str "Germany"), ("time", Value.num 2001),
          ("value", Value.num 110)]] := by
      decide
    have hv1 : groupVals "value"
        [[("country", Value.str "France"), ("time", Value.num 2000),
          ("value", Value.num 50)]] = [50] := by decide
    have hv2 : groupVals "value"
        [[("country", Value.str "Germany"), ("time", Value.num 2000),
          ("value", Value.num 100)],
         [("country", Value.str "Germany"), ("time", Value.num 2001),
          ("value", Value.num 110)]] = [100, 110] := by decide
    norm_num [aggRecordFor, hg1, hg2, hv1, hv2, qmean, qminV, qmaxV, qsum,
      min_def, max_def]

/-- C2, witness: the theorem applied to the scenario table. -/
theorem aggregate_by_country_spec_witness :
    ∃ recs, aggregate_by_country c2Table = AggResult.agg recs ∧
      (recs.map AggRecord.country).Nodup := by
  obtain ⟨⟨recs, h1, _, h3, _⟩, _⟩ :=
    aggregate_by_country_spec c2Table "country" "value" (by decide) (by decide)
  exact ⟨recs, h1, h3⟩

end EuroPop
